import Mathlib

/-!
Verification of the OPML → feedlist.txt converter (`opml2txt.py`).

The program is a single pipeline: resolve input patterns → parse each OPML
file → extract (url, title) records → aggregate with per-file section
markers and first-seen-wins URL deduplication → format and write the output
text file.

Shallow embedding: XML documents are element trees; the filesystem is a
record of two functions (glob expansion and file lookup); file lookup
returns `none` for a missing file, `some none` for a file that exists but
fails to parse (the `except` branch of the source), and `some (some root)`
for a parsed document.  Every write the program performs is one output line,
so the formatter is modelled both as the list of lines written and as the
concatenated file content.
-/

/-- One subscription entry, or (when `url` begins with `#`) a literal
comment / section-marker line.  Mirrors the `{'url': ..., 'title': ...}`
dicts of the source. -/
structure FeedRecord where
  url : String
  title : String
deriving DecidableEq

/-- A record that is not a comment / section-marker line: its url does not
begin with `#` (the source's `feed['url'].startswith('#')` test, a check
on the one-character prefix, i.e. on the first character). -/
def notComment (f : FeedRecord) : Bool :=
  match f.url.data with
  | [] => true
  | c :: _ => c != '#'

/-- An XML element: tag, attribute list, children.  Attribute lookup is
first-match over the list (XML forbids duplicate attributes). -/
inductive XMLElem where
  | node (tag : String) (attrs : List (String × String)) (children : List XMLElem)

/-- The element's tag. -/
def XMLElem.tag : XMLElem → String
  | .node t _ _ => t

/-- `Element.get`: the attribute's value, or `none` when absent. -/
def XMLElem.getAttr : XMLElem → String → Option String
  | .node _ attrs _, k => (attrs.find? (fun p => p.1 == k)).map Prod.snd

/-- Python truthiness on an optional string: `None` and `""` are falsy. -/
def truthyStr : Option String → Option String
  | none => none
  | some s => if s = "" then none else some s

mutual
/-- `root.iter(t)`: the elements tagged `t` in document (preorder) order,
the root included. -/
def iterTag (t : String) : XMLElem → List XMLElem
  | .node tag attrs children =>
    (if tag = t then [XMLElem.node tag attrs children] else []) ++ iterTagList t children

/-- `iterTag` over a forest, left to right. -/
def iterTagList (t : String) : List XMLElem → List XMLElem
  | [] => []
  | e :: es => iterTag t e ++ iterTagList t es
end

/-- The body of the `for outline in root.iter('outline')` loop: a record is
emitted exactly when `xmlUrl` is truthy, with the `title or text or ''`
fallback chain for the title. -/
def extractFeedsFromRoot (root : XMLElem) : List FeedRecord :=
  (iterTag "outline" root).filterMap fun outline =>
    match truthyStr (outline.getAttr "xmlUrl") with
    | none => none
    | some u =>
      some { url := u,
             title := ((truthyStr (outline.getAttr "title")).orElse
                        (fun _ => truthyStr (outline.getAttr "text"))).getD "" }

/-- `extract_feeds_from_opml`: a file whose parse raised (`none`) yields
`[]` via the `except` branch; otherwise the extraction loop runs on the
parsed root. -/
def extract_feeds_from_opml (parsed : Option XMLElem) : List FeedRecord :=
  match parsed with
  | none => []
  | some root => extractFeedsFromRoot root

/-- The filesystem as the program observes it.  `glob pat` is the ordered
match list the filesystem reports for a wildcard pattern; `file p` is
`none` when `p` does not exist, `some none` when it exists but reading or
parsing it raises, and `some (some root)` when it parses to `root`. -/
structure FS where
  glob : String → List String
  file : String → Option (Option XMLElem)

/-- `'*' in pattern or '?' in pattern`. -/
def hasWildcard (p : String) : Bool := p.data.contains '*' || p.data.contains '?'

/-- The `files_to_process` loop: wildcard patterns are replaced by their
glob matches in reported order, other arguments are kept literally. -/
def resolvePatterns (fs : FS) (patterns : List String) : List String :=
  patterns.flatMap fun pat => if hasWildcard pat then fs.glob pat else [pat]

/-- `Path(p).name`: the final path component. -/
def baseName (p : String) : String := ((p.splitOn "/").getLastD p)

/-- The separator record the aggregator writes around a file header. -/
def sepRecord : FeedRecord :=
  { url := "# ========================================", title := "" }

/-- The three section-marker records prepended for one input file. -/
def fileMarker (p : String) : List FeedRecord :=
  [sepRecord, { url := "# Feeds from: " ++ baseName p, title := "" }, sepRecord]

/-- The `for feed in feeds` dedup loop: state is the accumulated output
list `all_feeds` and the `seen_urls` set (modelled as the list of distinct
URLs in insertion order). -/
def addFeeds : List FeedRecord → List FeedRecord × List String → List FeedRecord × List String
  | [], st => st
  | f :: rest, (acc, seen) =>
    if f.url ∈ seen then addFeeds rest (acc, seen)
    else addFeeds rest (acc ++ [f], f.url :: seen)

/-- One iteration of the `for opml_file in files_to_process` loop: a
missing file is skipped; otherwise the file is extracted, the three
section markers are appended when `add_comments` is set and the extraction
(pre-dedup) was non-empty, and the dedup loop runs. -/
def processFile (fs : FS) (addComments : Bool)
    (st : List FeedRecord × List String) (path : String) :
    List FeedRecord × List String :=
  match fs.file path with
  | none => st
  | some parsed =>
    let feeds := extract_feeds_from_opml parsed
    let st1 := if addComments && !feeds.isEmpty then (st.1 ++ fileMarker path, st.2) else st
    addFeeds feeds st1

/-- `process_opml_files` up to the write: the aggregated record list and
the reported unique-URL count `len(seen_urls)`. -/
def process_opml_files (fs : FS) (inputFiles : List String) (addComments : Bool) :
    List FeedRecord × Nat :=
  let files := resolvePatterns fs inputFiles
  let st := files.foldl (processFile fs addComments) ([], [])
  (st.1, st.2.length)

/-- The lines the writer emits for one record: the `# <title>` comment
line (only with comments on, a non-empty title, and a url not starting
with `#`), the url line, and the blank separator line (only with comments
on and a url not starting with `#`). -/
def formatFeedLines (addComments : Bool) (f : FeedRecord) : List String :=
  (if addComments && f.title != "" && notComment f then ["# " ++ f.title] else [])
    ++ [f.url]
    ++ (if addComments && notComment f then [""] else [])

/-- All lines written to the output file, in order. -/
def outputLines (addComments : Bool) (feeds : List FeedRecord) : List String :=
  feeds.flatMap (formatFeedLines addComments)

/-- The output file's byte content: each emitted line followed by a
newline. -/
def writeOutput (addComments : Bool) (feeds : List FeedRecord) : String :=
  String.join ((outputLines addComments feeds).map (fun l => l ++ "\n"))

/-- The run configuration `main` hands to `process_opml_files`. -/
structure RunConfig where
  inputFiles : List String
  outputFile : String
  addComments : Bool
deriving DecidableEq

/-- What `main`'s argument handling decides: print usage and exit 1, or
run with a configuration. -/
inductive MainResult where
  | usage
  | run (cfg : RunConfig)
deriving DecidableEq

/-- `main`'s argument handling over `sys.argv[1:]` (the program name
itself is assumed not to be `--no-comments` and not to end in `.opml`):
with no arguments, usage; otherwise the last argument is the output path
exactly when there are at least two arguments and it does not end in
`.opml`, and `--no-comments` is filtered out of the input list (but not
out of the output-path slot). -/
def parseArgs (args : List String) : MainResult :=
  if args.isEmpty then MainResult.usage
  else
    let lastArg := args.getLastD ""
    let isOut := decide (1 < args.length) && !(List.isSuffixOf ".opml".data lastArg.data)
    let inputs0 := if isOut then args.dropLast else args
    let outputFile := if isOut then lastArg else "feedlist.txt"
    let hasFlag := args.contains "--no-comments"
    let inputs := if hasFlag then inputs0.filter (fun f => f != "--no-comments") else inputs0
    MainResult.run { inputFiles := inputs, outputFile := outputFile, addComments := !hasFlag }

/-- The observable outcome of a whole invocation: the usage exit, or the
output path, its written content, and the reported unique count. -/
inductive RunOutcome where
  | usageExit
  | wrote (path : String) (content : String) (count : Nat)
deriving DecidableEq

/-- A whole invocation of `main` against a filesystem. -/
def mainRun (fs : FS) (args : List String) : RunOutcome :=
  match parseArgs args with
  | MainResult.usage => RunOutcome.usageExit
  | MainResult.run cfg =>
    let res := process_opml_files fs cfg.inputFiles cfg.addComments
    RunOutcome.wrote cfg.outputFile (writeOutput cfg.addComments res.1) res.2

/-- The process exit status for an outcome. -/
def exitCode : RunOutcome → Nat
  | RunOutcome.usageExit => 1
  | RunOutcome.wrote _ _ _ => 0

/-! ### Reference (specification-side) definitions

These restate the spec's description of the pipeline — first-seen-wins
deduplication, per-file marker blocks, preorder traversal — to be compared
with the definitions above, which are translated from the source. -/

/-- First-seen-wins deduplication: keep a record exactly when its url is
neither in `seen` nor the url of an earlier kept record; order is
preserved and the first occurrence survives. -/
def dedupFirst (seen : List String) : List FeedRecord → List FeedRecord
  | [] => []
  | f :: rest =>
    if f.url ∈ seen then dedupFirst seen rest
    else f :: dedupFirst (f.url :: seen) rest

/-- The seen-URL set after scanning a record list, as a list of distinct
URLs. -/
def accumSeen (seen : List String) : List FeedRecord → List String
  | [] => seen
  | f :: rest =>
    if f.url ∈ seen then accumSeen seen rest
    else accumSeen (f.url :: seen) rest

/-- The records one resolved path contributes before deduplication: none
when the file is missing, the extractor's output otherwise (empty on a
parse failure). -/
def fileFeeds (fs : FS) (p : String) : List FeedRecord :=
  match fs.file p with
  | none => []
  | some parsed => extract_feeds_from_opml parsed

/-- The spec's description of the Aggregator: per resolved file, the three
section markers exactly when comments are on and that file extracted at
least one record (pre-dedup), then the file's surviving records, dedup
state threaded across files. -/
def aggregateSpec (fs : FS) (ac : Bool) (seen : List String) : List String → List FeedRecord
  | [] => []
  | p :: rest =>
    let feeds := fileFeeds fs p
    (if ac && !feeds.isEmpty then fileMarker p else [])
      ++ dedupFirst seen feeds
      ++ aggregateSpec fs ac (accumSeen seen feeds) rest

/-- The seen-URL set after a whole run over the resolved files. -/
def seenAfter (fs : FS) (seen : List String) : List String → List String
  | [] => seen
  | p :: rest => seenAfter fs (accumSeen seen (fileFeeds fs p)) rest

mutual
/-- All nodes of an element tree in document (preorder) order, the root
included. -/
def allNodes : XMLElem → List XMLElem
  | .node t a c => XMLElem.node t a c :: allNodesList c

/-- `allNodes` over a forest, left to right. -/
def allNodesList : List XMLElem → List XMLElem
  | [] => []
  | e :: es => allNodes e ++ allNodesList es
end

/-- The spec's title rule: the node's title attribute if present and
non-empty, else its text attribute if present and non-empty, else `""`. -/
def specTitle (e : XMLElem) : String :=
  match e.getAttr "title" with
  | some t =>
    if t = "" then
      match e.getAttr "text" with
      | some s => if s = "" then "" else s
      | none => ""
    else t
  | none =>
    match e.getAttr "text" with
    | some s => if s = "" then "" else s
    | none => ""

/-- The spec's per-node record rule: a record exactly when the node
carries a non-empty `xmlUrl` attribute. -/
def specRecord (e : XMLElem) : Option FeedRecord :=
  match e.getAttr "xmlUrl" with
  | some u => if u = "" then none else some { url := u, title := specTitle e }
  | none => none

/-! ### Helper lemmas -/

theorem notComment_sepRecord : notComment sepRecord = false := by decide

theorem notComment_header (p : String) :
    notComment { url := "# Feeds from: " ++ baseName p, title := "" } = false := by
  unfold notComment
  have h : ("# Feeds from: " ++ baseName p).data
      = '#' :: (" Feeds from: ".data ++ (baseName p).data) := by simp
  rw [h]
  simp

theorem fileMarker_filter_notComment (p : String) :
    (fileMarker p).filter notComment = [] := by
  unfold fileMarker
  simp [List.filter, notComment_sepRecord, notComment_header p]

theorem addFeeds_eq (feeds : List FeedRecord) :
    ∀ acc seen, addFeeds feeds (acc, seen)
      = (acc ++ dedupFirst seen feeds, accumSeen seen feeds) := by
  induction feeds with
  | nil => intro acc seen; simp [addFeeds, dedupFirst, accumSeen]
  | cons f rest ih =>
    intro acc seen
    by_cases h : f.url ∈ seen
    · simp [addFeeds, dedupFirst, accumSeen, h, ih]
    · simp [addFeeds, dedupFirst, accumSeen, h, ih]

theorem dedupFirst_append (xs ys : List FeedRecord) :
    ∀ seen, dedupFirst seen (xs ++ ys)
      = dedupFirst seen xs ++ dedupFirst (accumSeen seen xs) ys := by
  induction xs with
  | nil => intro seen; simp [dedupFirst, accumSeen]
  | cons f rest ih =>
    intro seen
    by_cases h : f.url ∈ seen <;> simp [dedupFirst, accumSeen, h, ih]

theorem accumSeen_append (xs ys : List FeedRecord) :
    ∀ seen, accumSeen seen (xs ++ ys) = accumSeen (accumSeen seen xs) ys := by
  induction xs with
  | nil => intro seen; simp [accumSeen]
  | cons f rest ih =>
    intro seen
    by_cases h : f.url ∈ seen <;> simp [accumSeen, h, ih]

theorem processFile_eq (fs : FS) (ac : Bool) (acc : List FeedRecord)
    (seen : List String) (p : String) :
    processFile fs ac (acc, seen) p
      = (acc ++ ((if ac && !(fileFeeds fs p).isEmpty then fileMarker p else [])
            ++ dedupFirst seen (fileFeeds fs p)),
         accumSeen seen (fileFeeds fs p)) := by
  unfold processFile fileFeeds
  cases h : fs.file p with
  | none => simp [extract_feeds_from_opml, dedupFirst, accumSeen]
  | some parsed =>
    by_cases hc : ac && !(extract_feeds_from_opml parsed).isEmpty
    · simp [hc, addFeeds_eq]
    · simp [hc, addFeeds_eq]

theorem foldl_processFile_eq (fs : FS) (ac : Bool) :
    ∀ (files : List String) (acc : List FeedRecord) (seen : List String),
      files.foldl (processFile fs ac) (acc, seen)
        = (acc ++ aggregateSpec fs ac seen files, seenAfter fs seen files) := by
  intro files
  induction files with
  | nil => intro acc seen; simp [aggregateSpec, seenAfter]
  | cons p rest ih =>
    intro acc seen
    rw [List.foldl_cons, processFile_eq, ih]
    simp [aggregateSpec, seenAfter]

theorem process_opml_files_eq (fs : FS) (inputs : List String) (ac : Bool) :
    process_opml_files fs inputs ac
      = (aggregateSpec fs ac [] (resolvePatterns fs inputs),
         (seenAfter fs [] (resolvePatterns fs inputs)).length) := by
  simp only [process_opml_files, foldl_processFile_eq]
  simp

theorem aggregateSpec_false (fs : FS) :
    ∀ (files : List String) (seen : List String),
      aggregateSpec fs false seen files
        = dedupFirst seen (files.flatMap (fileFeeds fs)) := by
  intro files
  induction files with
  | nil => intro seen; simp [aggregateSpec, dedupFirst]
  | cons p rest ih =>
    intro seen
    simp [aggregateSpec, dedupFirst_append, ih]

theorem seenAfter_eq (fs : FS) :
    ∀ (files : List String) (seen : List String),
      seenAfter fs seen files = accumSeen seen (files.flatMap (fileFeeds fs)) := by
  intro files
  induction files with
  | nil => intro seen; simp [seenAfter, accumSeen]
  | cons p rest ih =>
    intro seen
    simp [seenAfter, accumSeen_append, ih]

theorem filter_aggregateSpec (fs : FS) (ac : Bool) :
    ∀ (files : List String) (seen : List String),
      (aggregateSpec fs ac seen files).filter notComment
        = (dedupFirst seen (files.flatMap (fileFeeds fs))).filter notComment := by
  intro files
  induction files with
  | nil => intro seen; simp [aggregateSpec, dedupFirst]
  | cons p rest ih =>
    intro seen
    by_cases hc : ac && !(fileFeeds fs p).isEmpty
    · simp [aggregateSpec, hc, List.filter_append, fileMarker_filter_notComment,
        dedupFirst_append, ih]
    · simp [aggregateSpec, hc, List.filter_append, dedupFirst_append, ih]

theorem dedupFirst_nodup_fresh :
    ∀ (l : List FeedRecord) (seen : List String),
      (((dedupFirst seen l).map FeedRecord.url).Nodup)
        ∧ ∀ f ∈ dedupFirst seen l, f.url ∉ seen := by
  intro l
  induction l with
  | nil => intro seen; simp [dedupFirst]
  | cons f rest ih =>
    intro seen
    by_cases h : f.url ∈ seen
    · simpa [dedupFirst, h] using ih seen
    · have ih' := ih (f.url :: seen)
      constructor
      · rw [dedupFirst, if_neg h]
        simp only [List.map_cons, List.nodup_cons]
        refine ⟨?_, ih'.1⟩
        intro hmem
        rcases List.mem_map.mp hmem with ⟨g, hg, hurl⟩
        exact (ih'.2 g hg) (by simp [hurl])
      · intro g hg
        rw [dedupFirst, if_neg h] at hg
        rcases List.mem_cons.mp hg with rfl | hg'
        · exact h
        · intro hs
          exact (ih'.2 g hg') (List.mem_cons_of_mem _ hs)

theorem mem_url_dedupFirst :
    ∀ (l : List FeedRecord) (seen : List String) (u : String),
      u ∈ l.map FeedRecord.url →
        u ∈ seen ∨ u ∈ (dedupFirst seen l).map FeedRecord.url := by
  intro l
  induction l with
  | nil => intro seen u hu; simp at hu
  | cons f rest ih =>
    intro seen u hu
    rw [List.map_cons] at hu
    rcases List.mem_cons.mp hu with rfl | hu'
    · by_cases h : f.url ∈ seen
      · exact Or.inl h
      · right
        rw [dedupFirst, if_neg h]
        simp
    · by_cases h : f.url ∈ seen
      · rw [dedupFirst, if_pos h]
        exact ih seen u hu'
      · rw [dedupFirst, if_neg h]
        rcases ih (f.url :: seen) u hu' with hs | hd
        · rcases List.mem_cons.mp hs with rfl | hs'
          · right; simp
          · exact Or.inl hs'
        · right
          simp only [List.map_cons, List.mem_cons]
          exact Or.inr hd

theorem truthyStr_ne (o : Option String) (u : String) (h : truthyStr o = some u) :
    u ≠ "" := by
  cases o with
  | none => simp [truthyStr] at h
  | some s =>
    unfold truthyStr at h
    by_cases hs : s = ""
    · simp [hs] at h
    · simp [hs] at h
      subst h
      exact hs

theorem extract_url_ne_empty (x : Option XMLElem) (f : FeedRecord)
    (hf : f ∈ extract_feeds_from_opml x) : f.url ≠ "" := by
  cases x with
  | none => simp [extract_feeds_from_opml] at hf
  | some root =>
    simp only [extract_feeds_from_opml, extractFeedsFromRoot] at hf
    rcases List.mem_filterMap.mp hf with ⟨e, _, hmk⟩
    cases ht : truthyStr (e.getAttr "xmlUrl") with
    | none => rw [ht] at hmk; simp at hmk
    | some u =>
      rw [ht] at hmk
      simp only [Option.some.injEq] at hmk
      have hu := truthyStr_ne _ _ ht
      rw [← hmk]
      simpa using hu

theorem formatFeedLines_false (f : FeedRecord) : formatFeedLines false f = [f.url] := by
  simp [formatFeedLines]

theorem formatFeedLines_comment (ac : Bool) (f : FeedRecord)
    (h : notComment f = false) : formatFeedLines ac f = [f.url] := by
  simp [formatFeedLines, h]

theorem outputLines_false (feeds : List FeedRecord) :
    outputLines false feeds = feeds.map FeedRecord.url := by
  induction feeds with
  | nil => rfl
  | cons f rest ih =>
    simp only [outputLines, List.flatMap_cons] at *
    rw [formatFeedLines_false, ih]
    rfl

theorem dedupFirst_subset :
    ∀ (l : List FeedRecord) (seen : List String) (f : FeedRecord),
      f ∈ dedupFirst seen l → f ∈ l := by
  intro l
  induction l with
  | nil => intro seen f hf; simp [dedupFirst] at hf
  | cons g rest ih =>
    intro seen f hf
    by_cases h : g.url ∈ seen
    · rw [dedupFirst, if_pos h] at hf
      exact List.mem_cons_of_mem _ (ih seen f hf)
    · rw [dedupFirst, if_neg h] at hf
      rcases List.mem_cons.mp hf with rfl | hf'
      · exact List.mem_cons_self _ _
      · exact List.mem_cons_of_mem _ (ih _ f hf')

theorem mem_accumSeen :
    ∀ (l : List FeedRecord) (seen : List String),
      (∀ u ∈ seen, u ∈ accumSeen seen l) ∧ ∀ f ∈ l, f.url ∈ accumSeen seen l := by
  intro l
  induction l with
  | nil => intro seen; simp [accumSeen]
  | cons f rest ih =>
    intro seen
    by_cases h : f.url ∈ seen
    · have ih' := ih seen
      rw [accumSeen, if_pos h]  -- misuse? accumSeen pattern
      constructor
      · exact ih'.1
      · intro g hg
        rcases List.mem_cons.mp hg with rfl | hg'
        · exact ih'.1 g.url h
        · exact ih'.2 g hg'
    · have ih' := ih (f.url :: seen)
      rw [accumSeen, if_neg h]
      constructor
      · intro u hu
        exact ih'.1 u (List.mem_cons_of_mem _ hu)
      · intro g hg
        rcases List.mem_cons.mp hg with rfl | hg'
        · exact ih'.1 g.url (List.mem_cons_self _ _)
        · exact ih'.2 g hg'

theorem aggregateSpec_all_empty (fs : FS) (ac : Bool) :
    ∀ (files : List String) (seen : List String),
      (∀ p ∈ files, fileFeeds fs p = []) →
      aggregateSpec fs ac seen files = [] ∧ seenAfter fs seen files = seen := by
  intro files
  induction files with
  | nil => intro seen _; simp [aggregateSpec, seenAfter]
  | cons p rest ih =>
    intro seen h
    have hp : fileFeeds fs p = [] := h p (List.mem_cons_self _ _)
    have ih' := ih seen (fun q hq => h q (List.mem_cons_of_mem _ hq))
    simp [aggregateSpec, seenAfter, hp, dedupFirst, accumSeen, ih'.1, ih'.2]

/-! The traversal refinement: the source's `root.iter(t)` equals the
filter of the full preorder node list by tag. -/
mutual
theorem iterTag_eq (t : String) : (e : XMLElem) →
    iterTag t e = (allNodes e).filter (fun x => x.tag == t)
  | .node tag a c => by
    simp only [iterTag, allNodes, List.filter_cons, iterTag_eq_list t c]
    by_cases h : tag = t
    · simp [XMLElem.tag, h]
    · simp [XMLElem.tag, h]

theorem iterTag_eq_list (t : String) : (es : List XMLElem) →
    iterTagList t es = (allNodesList es).filter (fun x => x.tag == t)
  | [] => by simp [iterTagList, allNodesList]
  | e :: es => by
    simp only [iterTagList, allNodesList, List.filter_append,
      iterTag_eq t e, iterTag_eq_list t es]
end

theorem title_chain_eq_specTitle (e : XMLElem) :
    ((truthyStr (e.getAttr "title")).orElse
        (fun _ => truthyStr (e.getAttr "text"))).getD "" = specTitle e := by
  unfold specTitle
  cases ht : e.getAttr "title" with
  | none =>
    cases hx : e.getAttr "text" with
    | none => simp [truthyStr]
    | some s => by_cases hs : s = "" <;> simp [truthyStr, hs]
  | some t' =>
    by_cases htt : t' = ""
    · subst htt
      cases hx : e.getAttr "text" with
      | none => simp [truthyStr]
      | some s => by_cases hs : s = "" <;> simp [truthyStr, hs]
    · simp [truthyStr, htt]

theorem extractRecord_eq_specRecord (e : XMLElem) :
    (match truthyStr (e.getAttr "xmlUrl") with
      | none => none
      | some u =>
        some { url := u,
               title := ((truthyStr (e.getAttr "title")).orElse
                          (fun _ => truthyStr (e.getAttr "text"))).getD "" })
      = specRecord e := by
  cases hx : truthyStr (e.getAttr "xmlUrl") with
  | none =>
    unfold specRecord
    unfold truthyStr at hx
    cases hg : e.getAttr "xmlUrl" with
    | none => simp
    | some v =>
      rw [hg] at hx
      by_cases hv : v = ""
      · simp [hv]
      · simp [hv] at hx
  | some u =>
    rw [title_chain_eq_specTitle e]
    unfold specRecord
    unfold truthyStr at hx
    cases hg : e.getAttr "xmlUrl" with
    | none => rw [hg] at hx; simp at hx
    | some v =>
      rw [hg] at hx
      by_cases hv : v = ""
      · simp [hv] at hx
      · simp [hv] at hx
        subst hx
        simp [hv]

theorem filterMap_ext {α β : Type} (f g : α → Option β) (h : ∀ a, f a = g a) :
    ∀ l : List α, l.filterMap f = l.filterMap g := by
  intro l
  induction l with
  | nil => rfl
  | cons a l ih => simp [List.filterMap_cons, h a, ih]

theorem process_fst_eq (fs : FS) (inputs : List String) (ac : Bool) :
    (process_opml_files fs inputs ac).1
      = aggregateSpec fs ac [] (resolvePatterns fs inputs) := by
  rw [process_opml_files_eq]

theorem process_snd_eq (fs : FS) (inputs : List String) (ac : Bool) :
    (process_opml_files fs inputs ac).2
      = (seenAfter fs [] (resolvePatterns fs inputs)).length := by
  rw [process_opml_files_eq]

/-! ### Concrete fixtures used by witnesses and counterexamples -/

/-- A filesystem on which every path is missing. -/
def fsNone : FS := { glob := fun _ => [], file := fun _ => none }

/-- A filesystem on which every file exists but fails to parse. -/
def fsBad : FS := { glob := fun _ => [], file := fun _ => some none }

/-- A document whose only outline's feed URL starts with `#`. -/
def docHash : XMLElem := .node "opml" [] [.node "outline" [("xmlUrl", "#x")] []]

/-- A filesystem holding only `h.opml`, which parses to `docHash`. -/
def fsHash : FS :=
  { glob := fun _ => [], file := fun p => if p = "h.opml" then some (some docHash) else none }

/-- A document with one feed `u1`. -/
def docC : XMLElem := .node "opml" [] [.node "outline" [("xmlUrl", "u1")] []]

/-- A document with one feed `u2`. -/
def docD : XMLElem := .node "opml" [] [.node "outline" [("xmlUrl", "u2")] []]

/-- File contents shared by the two glob-order fixtures. -/
def demoFile : String → Option (Option XMLElem) := fun p =>
  if p = "c.opml" then some (some docC) else if p = "d.opml" then some (some docD) else none

/-- A filesystem reporting glob matches as `c.opml`, `d.opml`. -/
def fsOrdA : FS := { glob := fun _ => ["c.opml", "d.opml"], file := demoFile }

/-- The same files, glob matches reported in the other order. -/
def fsOrdB : FS := { glob := fun _ => ["d.opml", "c.opml"], file := demoFile }

/-- A second spelling of `fsOrdA`: an environment equal component-wise. -/
def fsOrdA2 : FS := { glob := fun _ => ["c.opml", "d.opml"], file := demoFile }

/-- A line of the output file that starts with the character `#`. -/
def lineStartsHash (l : String) : Bool :=
  match l.data with
  | [] => false
  | c :: _ => c == '#'

/-! ### Claims -/

/-- C1: no two non-comment records of the final output share a url; the
non-comment part of the output equals, and with comments off the whole
output equals, the first-seen-wins deduplication of the concatenated
per-file extractions in file-then-document order — a repeated URL appears
once, at its first occurrence, and later occurrences are dropped without
reordering the survivors. -/
theorem c1_dedup_unique_first_occurrence (fs : FS) (inputs : List String) (ac : Bool) :
    ((((process_opml_files fs inputs ac).1.filter notComment).map FeedRecord.url).Nodup)
    ∧ ((process_opml_files fs inputs ac).1.filter notComment
        = (dedupFirst [] ((resolvePatterns fs inputs).flatMap (fileFeeds fs))).filter notComment)
    ∧ ((process_opml_files fs inputs false).1
        = dedupFirst [] ((resolvePatterns fs inputs).flatMap (fileFeeds fs))) := by
  have hfil : (process_opml_files fs inputs ac).1.filter notComment
      = (dedupFirst [] ((resolvePatterns fs inputs).flatMap (fileFeeds fs))).filter
          notComment := by
    rw [process_fst_eq, filter_aggregateSpec]
  refine ⟨?_, hfil, ?_⟩
  · rw [hfil]
    exact List.Nodup.sublist ((List.filter_sublist _).map _)
      (dedupFirst_nodup_fresh _ []).1
  · rw [process_fst_eq, aggregateSpec_false]

/-- C2: the aggregated output decomposes per resolved file as: the three
section-marker records (separator, `# Feeds from: <base filename>`,
separator — see `fileMarker`) exactly when `add_comments` is true and the
extractor returned at least one (pre-dedup) record for that file, then
that file's surviving records; when `add_comments` is false or the file
extracted zero records, no markers are emitted for it. -/
theorem c2_section_markers_per_file (fs : FS) (inputs : List String) (ac : Bool) :
    (process_opml_files fs inputs ac).1 = aggregateSpec fs ac [] (resolvePatterns fs inputs)
    ∧ ∀ p : String, (fileMarker p).length = 3 := by
  exact ⟨process_fst_eq fs inputs ac, fun _ => rfl⟩

/-- C3: for a document that parses, the extractor returns exactly one
record per node tagged `outline` (in preorder document order, any nesting
depth) that carries a non-empty `xmlUrl`, with the title-fallback rule
title → text → `""`; outline nodes without a non-empty feed URL produce no
record while their descendants are still visited. -/
theorem c3_extractor_outline_records (root : XMLElem) :
    extract_feeds_from_opml (some root)
      = ((allNodes root).filter (fun e => e.tag == "outline")).filterMap specRecord := by
  simp only [extract_feeds_from_opml, extractFeedsFromRoot]
  rw [iterTag_eq]
  exact filterMap_ext _ _ extractRecord_eq_specRecord _

/-- C4: a file that exists but fails to parse or read contributes the
empty record sequence, its processing step leaves the aggregation state
unchanged, and the run continues with the remaining files. -/
theorem c4_parse_failure_absorbed (fs : FS) (ac : Bool)
    (st : List FeedRecord × List String) (p : String) (rest : List String)
    (hp : fs.file p = some none) :
    extract_feeds_from_opml none = []
    ∧ processFile fs ac st p = st
    ∧ (p :: rest).foldl (processFile fs ac) st = rest.foldl (processFile fs ac) st := by
  have h1 : processFile fs ac st p = st := by
    unfold processFile
    rw [hp]
    simp [extract_feeds_from_opml, addFeeds]
  exact ⟨rfl, h1, by rw [List.foldl_cons, h1]⟩

theorem c4_parse_failure_absorbed_witness :
    extract_feeds_from_opml none = []
    ∧ processFile fsBad true ([], []) "bad.opml" = ([], [])
    ∧ ("bad.opml" :: ["ok.opml"]).foldl (processFile fsBad true) ([], [])
        = ["ok.opml"].foldl (processFile fsBad true) ([], []) :=
  c4_parse_failure_absorbed fsBad true ([], []) "bad.opml" ["ok.opml"] rfl

/-- C5 fails on the code: when `--no-comments` is the last of two or more
arguments it does not end in `.opml`, so `main` selects it as the output
path — the run writes its output to a file literally named
`--no-comments`. -/
theorem c5_flag_as_output_path_counterexample :
    parseArgs ["a.opml", "--no-comments"]
      = MainResult.run
          { inputFiles := ["a.opml"], outputFile := "--no-comments", addComments := false }
    ∧ mainRun fsNone ["a.opml", "--no-comments"] = RunOutcome.wrote "--no-comments" "" 0 := by
  decide

/-- C5 (amended): `--no-comments` is removed from the input-file list
wherever it appears (it is never an input pattern) and its presence turns
comments off, which suppresses every title-comment line, blank separator
line, and section marker; however, when it is the final of at least two
arguments it is selected as the output path. -/
theorem c5_flag_removed_from_inputs (args : List String) (cfg : RunConfig) (fs : FS)
    (h : parseArgs args = MainResult.run cfg) :
    "--no-comments" ∉ cfg.inputFiles
    ∧ (args.contains "--no-comments" = true → cfg.addComments = false)
    ∧ (cfg.addComments = false →
        (outputLines cfg.addComments (process_opml_files fs cfg.inputFiles cfg.addComments).1
          = (process_opml_files fs cfg.inputFiles cfg.addComments).1.map FeedRecord.url)
        ∧ ∀ f ∈ (process_opml_files fs cfg.inputFiles cfg.addComments).1,
            f ∈ (resolvePatterns fs cfg.inputFiles).flatMap (fileFeeds fs)) := by
  unfold parseArgs at h
  by_cases he : args.isEmpty = true
  · rw [if_pos he] at h
    exact absurd h (by simp)
  · rw [if_neg he] at h
    simp only [MainResult.run.injEq] at h
    subst h
    refine ⟨?_, ?_, ?_⟩
    · by_cases hflag : args.contains "--no-comments" = true
      · simp only [hflag, if_pos]
        intro hmem
        have := (List.mem_filter.mp hmem).2
        simp at this
      · simp only [hflag]
        have hnot : "--no-comments" ∉ args := by
          simp only [Bool.not_eq_true] at hflag
          simpa using hflag
        simp only [Bool.false_eq_true, if_false]
        by_cases hout : (decide (1 < args.length)
            && !List.isSuffixOf ".opml".data (args.getLastD "").data) = true
        · simp only [hout, if_pos]
          intro hmem
          exact hnot ((List.dropLast_sublist args).subset hmem)
        · simp only [hout]
          simpa using hnot
    · intro hflag
      rw [hflag]
      rfl
    · intro hac
      constructor
      · rw [hac]
        exact outputLines_false _
      · intro f hf
        rw [hac, process_fst_eq, aggregateSpec_false] at hf
        exact dedupFirst_subset _ _ _ hf

theorem c5_flag_removed_from_inputs_witness :
    "--no-comments" ∉ (["a.opml"] : List String)
    ∧ (RunConfig.addComments
        { inputFiles := ["a.opml"], outputFile := "--no-comments", addComments := false })
        = false
    ∧ (outputLines false (process_opml_files fsNone ["a.opml"] false).1
        = (process_opml_files fsNone ["a.opml"] false).1.map FeedRecord.url) := by
  have h := c5_flag_removed_from_inputs ["a.opml", "--no-comments"]
    { inputFiles := ["a.opml"], outputFile := "--no-comments", addComments := false }
    fsNone (by decide)
  exact ⟨h.1, h.2.1 (by decide), (h.2.2 rfl).1⟩

/-- C6 fails on the code: `main` only checks `len(sys.argv) < 2`, so the
invocation whose sole argument is the `--no-comments` flag — which
supplies no input pattern — skips the usage branch, processes an empty
input list, writes an empty output file, and exits 0. -/
theorem c6_flag_only_invocation_counterexample :
    parseArgs ["--no-comments"]
      = MainResult.run { inputFiles := [], outputFile := "feedlist.txt", addComments := false }
    ∧ mainRun fsNone ["--no-comments"] = RunOutcome.wrote "feedlist.txt" "" 0
    ∧ exitCode (mainRun fsNone ["--no-comments"]) = 0 := by
  decide

/-- C6 (amended): the usage/help exit with non-zero status happens exactly
when the argument list is empty; an empty invocation performs no
processing and writes nothing. -/
theorem c6_usage_iff_no_args (fs : FS) (args : List String) :
    (parseArgs args = MainResult.usage ↔ args = [])
    ∧ mainRun fs [] = RunOutcome.usageExit
    ∧ exitCode (mainRun fs []) = 1 := by
  refine ⟨⟨?_, ?_⟩, rfl, rfl⟩
  · intro h
    by_cases he : args.isEmpty = true
    · exact List.isEmpty_iff.mp he
    · unfold parseArgs at h
      rw [if_neg he] at h
      exact absurd h.symm (by simp)
  · intro h
    subst h
    rfl

/-- C7 fails on the code as stated: with `--no-comments` the output lines
are exactly the deduplicated feed URLs, but a feed whose own URL begins
with `#` puts a `#`-starting line in the output. -/
theorem c7_hash_url_line_counterexample :
    outputLines false (process_opml_files fsHash ["h.opml"] false).1 = ["#x"]
    ∧ lineStartsHash "#x" = true := by
  decide

/-- C7 (amended): with comments off, the output lines are exactly the
urls of the first-seen-wins deduplication of the extracted records, in
extraction order, one per line; there are no blank lines and no generated
comment or marker lines (a `#`-starting line can only be a feed URL that
itself begins with `#`). -/
theorem c7_no_comments_output_lines (fs : FS) (inputs : List String) :
    (outputLines false (process_opml_files fs inputs false).1
      = (dedupFirst [] ((resolvePatterns fs inputs).flatMap (fileFeeds fs))).map
          FeedRecord.url)
    ∧ ∀ l ∈ outputLines false (process_opml_files fs inputs false).1, l ≠ "" := by
  have h1 : (process_opml_files fs inputs false).1
      = dedupFirst [] ((resolvePatterns fs inputs).flatMap (fileFeeds fs)) := by
    rw [process_fst_eq, aggregateSpec_false]
  constructor
  · rw [h1, outputLines_false]
  · intro l hl
    rw [h1, outputLines_false] at hl
    rcases List.mem_map.mp hl with ⟨g, hg, rfl⟩
    have hgall := dedupFirst_subset _ _ _ hg
    rcases List.mem_flatMap.mp hgall with ⟨p, _, hgf⟩
    unfold fileFeeds at hgf
    cases hf : fs.file p with
    | none => rw [hf] at hgf; simp at hgf
    | some parsed =>
      rw [hf] at hgf
      exact extract_url_ne_empty parsed g hgf

/-- C8 fails on the code as stated: two runs with identical arguments and
identical file contents, whose filesystem merely reports the glob matches
in a different order, produce different output bytes (the spec itself
notes glob order carries no guaranteed sort). -/
theorem c8_glob_order_counterexample :
    fsOrdA.file = fsOrdB.file
    ∧ mainRun fsOrdA ["*.opml", "--no-comments"] ≠ mainRun fsOrdB ["*.opml", "--no-comments"]
    ∧ writeOutput false (process_opml_files fsOrdA ["*.opml"] false).1
        ≠ writeOutput false (process_opml_files fsOrdB ["*.opml"] false).1 :=
  ⟨rfl, by decide, by decide⟩

/-- C8 (amended): the pipeline is deterministic in everything it observes
— two runs against environments with equal glob reporting and equal file
contents produce the same outcome, byte-identical output included; byte
identity across real runs therefore holds exactly when the filesystem
reports the same enumeration both times. -/
theorem c8_determinism_given_environment (fs1 fs2 : FS) (args : List String)
    (hg : fs1.glob = fs2.glob) (hf : fs1.file = fs2.file) :
    mainRun fs1 args = mainRun fs2 args := by
  obtain ⟨g1, f1⟩ := fs1
  obtain ⟨g2, f2⟩ := fs2
  cases hg
  cases hf
  rfl

theorem c8_determinism_given_environment_witness :
    mainRun fsOrdA ["*.opml"] = mainRun fsOrdA2 ["*.opml"] :=
  c8_determinism_given_environment fsOrdA fsOrdA2 ["*.opml"] rfl rfl

/-- C9: a run that reaches processing always writes the output file, even
when every resolved input is missing or unparsable — the pre-existing
file is overwritten with empty content, the reported unique count is 0,
and the exit status is 0. -/
theorem c9_empty_run_writes_empty_file (fs : FS) (args : List String) (cfg : RunConfig)
    (hp : parseArgs args = MainResult.run cfg)
    (hall : ∀ p ∈ resolvePatterns fs cfg.inputFiles, fs.file p = none ∨ fs.file p = some none) :
    mainRun fs args = RunOutcome.wrote cfg.outputFile "" 0
    ∧ exitCode (mainRun fs args) = 0 := by
  have hempty : ∀ p ∈ resolvePatterns fs cfg.inputFiles, fileFeeds fs p = [] := by
    intro p hpm
    rcases hall p hpm with h | h <;> simp [fileFeeds, h, extract_feeds_from_opml]
  have hagg := aggregateSpec_all_empty fs cfg.addComments
    (resolvePatterns fs cfg.inputFiles) [] hempty
  have hout : mainRun fs args
      = RunOutcome.wrote cfg.outputFile
          (writeOutput cfg.addComments (process_opml_files fs cfg.inputFiles cfg.addComments).1)
          (process_opml_files fs cfg.inputFiles cfg.addComments).2 := by
    unfold mainRun
    rw [hp]
  constructor
  · rw [hout, process_fst_eq, process_snd_eq, hagg.1, hagg.2]
    rfl
  · rw [hout]
    rfl

theorem c9_empty_run_writes_empty_file_witness :
    mainRun fsNone ["a.opml"] = RunOutcome.wrote "feedlist.txt" "" 0
    ∧ exitCode (mainRun fsNone ["a.opml"]) = 0 :=
  c9_empty_run_writes_empty_file fsNone ["a.opml"]
    { inputFiles := ["a.opml"], outputFile := "feedlist.txt", addComments := true }
    (by decide) (fun p _ => Or.inl rfl)

/-- C10: an extracted feed whose url begins with `#` is deduplicated like
any other feed — it survives exactly once in the deduplicated sequence,
its url enters the seen set counted by the reported unique total — yet
the formatter emits it bare: no `# <title>` comment line and no trailing
blank line, even with comments on. -/
theorem c10_hash_url_feed_plain_format (fs : FS) (inputs : List String) (ac : Bool)
    (f : FeedRecord)
    (hmem : f ∈ (resolvePatterns fs inputs).flatMap (fileFeeds fs))
    (hhash : notComment f = false) :
    ((dedupFirst [] ((resolvePatterns fs inputs).flatMap (fileFeeds fs))).map
        FeedRecord.url).count f.url = 1
    ∧ f.url ∈ seenAfter fs [] (resolvePatterns fs inputs)
    ∧ (process_opml_files fs inputs ac).2
        = (seenAfter fs [] (resolvePatterns fs inputs)).length
    ∧ formatFeedLines ac f = [f.url] := by
  refine ⟨?_, ?_, process_snd_eq fs inputs ac, formatFeedLines_comment ac f hhash⟩
  · have hmemurl : f.url ∈ ((resolvePatterns fs inputs).flatMap (fileFeeds fs)).map
        FeedRecord.url := List.mem_map_of_mem _ hmem
    rcases mem_url_dedupFirst _ [] f.url hmemurl with hs | hd
    · simp at hs
    · exact List.count_eq_one_of_mem (dedupFirst_nodup_fresh _ []).1 hd
  · rw [seenAfter_eq]
    exact (mem_accumSeen _ []).2 f hmem

theorem c10_hash_url_feed_plain_format_witness :
    ((dedupFirst [] ((resolvePatterns fsHash ["h.opml"]).flatMap (fileFeeds fsHash))).map
        FeedRecord.url).count "#x" = 1
    ∧ ("#x" : String) ∈ seenAfter fsHash [] (resolvePatterns fsHash ["h.opml"])
    ∧ (process_opml_files fsHash ["h.opml"] true).2
        = (seenAfter fsHash [] (resolvePatterns fsHash ["h.opml"])).length
    ∧ formatFeedLines true { url := "#x", title := "" } = ["#x"] :=
  c10_hash_url_feed_plain_format fsHash ["h.opml"] true { url := "#x", title := "" }
    (by decide) (by decide)
